import Mathlib

/-!
Verification of the title auto-numbering engine of `google-forms-generator`
(`src/numbering.ts`, exported as `ALREADY_NUMBERED_RE`, `numberTitle`,
`numberSections`, `numberFlatQuestions`).

Strings are modelled as Lean `String` (lists of characters).  The JavaScript
regex `/^(Section\s+\d|Q\s+\d|\d+[\.\)]\s)/i` is embedded as an anchored
hand-written matcher over the character list.  `\d` is the ASCII digit class,
`\s` is the JavaScript whitespace class, and the `/i` flag is modelled by
ASCII lower-casing (the only case pairs that non-Unicode-mode canonicalization
lets match the ASCII keyword letters are the ASCII case pairs).
-/

/-- The JavaScript regex class `\d`: exactly the ASCII digits `0`-`9`. -/
def isDig (c : Char) : Bool :=
  48 ≤ c.toNat && c.toNat ≤ 57

/-- The JavaScript regex class `\s` (non-Unicode mode): tab, line feed,
vertical tab, form feed, carriage return, space, NBSP, Ogham space mark,
the U+2000–U+200A range, line/paragraph separator, narrow NBSP,
medium mathematical space, ideographic space, and BOM. -/
def isJsSpace (c : Char) : Bool :=
  let n := c.toNat
  n == 9 || n == 10 || n == 11 || n == 12 || n == 13 || n == 32 ||
  n == 0xa0 || n == 0x1680 || (0x2000 ≤ n && n ≤ 0x200a) ||
  n == 0x2028 || n == 0x2029 || n == 0x202f || n == 0x205f ||
  n == 0x3000 || n == 0xfeff

/-- The regex character class `[\.\)]`. -/
def isNumPunct (c : Char) : Bool :=
  c == '.' || c == ')'

/-- Case-insensitively strip a (lower-case) literal pattern from the front of
a character list, returning the remainder on success.  Models the literal
keyword part of the regex under the `/i` flag. -/
def stripCI : List Char → List Char → Option (List Char)
  | [], cs => some cs
  | _ :: _, [] => none
  | p :: ps, c :: cs => if c.toLower = p then stripCI ps cs else none

/-- After the first whitespace character: skip further whitespace, then
require a digit.  Together with `wsDigit` this models `\s+\d` (greedy
matching of `\s+` is equivalent to this scan because no character is both
whitespace and a digit). -/
def digitAfterWs : List Char → Bool
  | [] => false
  | c :: cs => if isJsSpace c then digitAfterWs cs else isDig c

/-- Models the regex fragment `\s+\d`: at least one whitespace character,
then a digit. -/
def wsDigit : List Char → Bool
  | [] => false
  | c :: cs => isJsSpace c && digitAfterWs cs

/-- Is the first character (if any) a JavaScript whitespace character? -/
def headIsJsSpace : List Char → Bool
  | [] => false
  | c :: _ => isJsSpace c

/-- After the first digit of `\d+[\.\)]\s`: skip further digits, then require
`.` or `)` followed by a whitespace character. -/
def afterDigits : List Char → Bool
  | [] => false
  | c :: cs => if isDig c then afterDigits cs else isNumPunct c && headIsJsSpace cs

/-- Models the regex alternative `\d+[\.\)]\s`. -/
def digitsPunctSpace : List Char → Bool
  | [] => false
  | c :: cs => isDig c && afterDigits cs

/-- Models a regex alternative `<keyword>\s+\d` (keyword matched
case-insensitively): strip the keyword, then require `\s+\d`. -/
def kwWsDigit (pat cs : List Char) : Bool :=
  match stripCI pat cs with
  | some rest => wsDigit rest
  | none => false

/-- The anchored matcher for `/^(Section\s+\d|Q\s+\d|\d+[\.\)]\s)/i` on a
character list: one of the three alternatives must match at the head. -/
def alreadyNumberedL (cs : List Char) : Bool :=
  kwWsDigit ("section".data) cs || kwWsDigit ("q".data) cs || digitsPunctSpace cs

/-- `ALREADY_NUMBERED_RE.test(s)` from `src/numbering.ts`:
`/^(Section\s+\d|Q\s+\d|\d+[\.\)]\s)/i.test(s)`. -/
def ALREADY_NUMBERED_RE (s : String) : Bool :=
  alreadyNumberedL s.data

/-- `numberTitle` from `src/numbering.ts`:
return the title unchanged if it already looks numbered, otherwise prepend
the prefix. -/
def numberTitle (pre title : String) : String :=
  if ALREADY_NUMBERED_RE title then title else pre ++ title

/-- `NumberableQuestion` from `src/numbering.ts`. -/
structure NumberableQuestion where
  type : String
  title : String
deriving DecidableEq, Repr

/-- `NumberableSection` from `src/numbering.ts`. -/
structure NumberableSection where
  title : String
  questions : List NumberableQuestion
deriving DecidableEq, Repr

/-- One element of the result of `numberSections`. -/
structure NumberedSection where
  sectionTitle : String
  questions : List String
deriving DecidableEq, Repr

/-- Decimal digit character: `0 ↦ '0'`, …, `9 ↦ '9'`. -/
def decDigitChar (n : Nat) : Char :=
  Char.ofNat (48 + n)

/-- Decimal digit list of `n`, most significant first; fuel-driven so that it
is structural (the fuel `n` always suffices).  Yields `[]` for `0`. -/
def natDigitsAux : Nat → Nat → List Char
  | 0, _ => []
  | fuel + 1, n =>
    if n = 0 then [] else natDigitsAux fuel (n / 10) ++ [decDigitChar (n % 10)]

/-- Decimal rendering of a natural number, as JavaScript template literals
render the (integer) numbering counters. -/
def natRepr (n : Nat) : String :=
  if n = 0 then "0" else ⟨natDigitsAux n n⟩

/-- The question prefix computed inside `numberQuestions`:
`"Q {sectionIndex}.{questionIndex} — "` when a section index is present,
`"Q {questionIndex} — "` otherwise. -/
def qPrefix : Option Nat → Nat → String
  | some s, idx => "Q " ++ natRepr s ++ "." ++ natRepr idx ++ " — "
  | none, idx => "Q " ++ natRepr idx ++ " — "

/-- The loop of `numberQuestions`, with the running question counter made
explicit (the source initializes `questionIndex = 1` and increments it after
numbering each non-title question). -/
def numberQuestionsGo (sectionIndex : Option Nat) :
    List NumberableQuestion → Nat → List String
  | [], _ => []
  | q :: qs, idx =>
    if q.type = "title" then
      q.title :: numberQuestionsGo sectionIndex qs idx
    else
      numberTitle (qPrefix sectionIndex idx) q.title ::
        numberQuestionsGo sectionIndex qs (idx + 1)

/-- `numberQuestions` from `src/numbering.ts` (the counter starts at 1). -/
def numberQuestions (questions : List NumberableQuestion)
    (sectionIndex : Option Nat) : List String :=
  numberQuestionsGo sectionIndex questions 1

/-- The loop of `numberSections`, with the 1-based section number made
explicit (the source maps with 0-based `i` and uses `sectionNum = i + 1`). -/
def numberSectionsGo : List NumberableSection → Nat → List NumberedSection
  | [], _ => []
  | s :: ss, i =>
    { sectionTitle := numberTitle ("Section " ++ natRepr i ++ " — ") s.title,
      questions := numberQuestions s.questions (some i) } ::
      numberSectionsGo ss (i + 1)

/-- `numberSections` from `src/numbering.ts`. -/
def numberSections (sections : List NumberableSection) : List NumberedSection :=
  numberSectionsGo sections 1

/-- `numberFlatQuestions` from `src/numbering.ts`. -/
def numberFlatQuestions (questions : List NumberableQuestion) : List String :=
  numberQuestions questions none

/-!
Spec-side declarative definitions (for refinement comparisons).  These follow
the wording of the natural-language specification, not the source code.
-/

/-- Spec §4.1, form 1: `"Section"` (case-insensitive) followed by whitespace
then a digit, anchored at the start of the string. -/
def SectionPrefixForm (cs : List Char) : Prop :=
  ∃ ks ws d rest, cs = ks ++ ws ++ d :: rest ∧
    ks.map Char.toLower = "section".data ∧ ws ≠ [] ∧
    (∀ c ∈ ws, isJsSpace c = true) ∧ isDig d = true

/-- Spec §4.1, form 2: `"Q"` (case-insensitive) followed by whitespace then a
digit, anchored at the start of the string. -/
def QPrefixForm (cs : List Char) : Prop :=
  ∃ ks ws d rest, cs = ks ++ ws ++ d :: rest ∧
    ks.map Char.toLower = "q".data ∧ ws ≠ [] ∧
    (∀ c ∈ ws, isJsSpace c = true) ∧ isDig d = true

/-- Spec §4.1, form 3: one or more digits followed immediately by `.` or `)`
then a whitespace character, anchored at the start of the string. -/
def NumDotForm (cs : List Char) : Prop :=
  ∃ ds p w rest, cs = ds ++ p :: w :: rest ∧ ds ≠ [] ∧
    (∀ c ∈ ds, isDig c = true) ∧ (p = '.' ∨ p = ')') ∧ isJsSpace w = true

/-- Spec §4.1: a title already carries a recognizable numbering prefix when
it starts with one of the three recognized forms. -/
def AlreadyNumberedSpec (s : String) : Prop :=
  SectionPrefixForm s.data ∨ QPrefixForm s.data ∨ NumDotForm s.data

/-- Rebuild a question input from its original `type` and a computed title
(used to feed the output of a numbering run back in). -/
def rebuildQuestion (q : NumberableQuestion) (t : String) : NumberableQuestion :=
  { type := q.type, title := t }

/-- Rebuild a section input from a numbering result, preserving each
question's original `type`. -/
def rebuildSection (s : NumberableSection) (o : NumberedSection) :
    NumberableSection :=
  { title := o.sectionTitle,
    questions := List.zipWith rebuildQuestion s.questions o.questions }

/-- Rebuild section inputs from a numbering result. -/
def rebuild (sections : List NumberableSection) (out : List NumberedSection) :
    List NumberableSection :=
  List.zipWith rebuildSection sections out

/-- Spec §4.4, specialized to fresh input: the question at non-title counter
value `k` (1-based, title items not consuming a slot) gets the literal prefix
`"Q {secIdx}.{k} — "` prepended. -/
def specNumberQuestionsGo (secIdx : Nat) :
    List NumberableQuestion → Nat → List String
  | [], _ => []
  | q :: qs, k =>
    if q.type = "title" then
      q.title :: specNumberQuestionsGo secIdx qs k
    else
      ("Q " ++ natRepr secIdx ++ "." ++ natRepr k ++ " — " ++ q.title) ::
        specNumberQuestionsGo secIdx qs (k + 1)

/-- Spec §4.3, specialized to fresh input: the section at 1-based position
`i` gets the literal prefix `"Section {i} — "` prepended and its questions
numbered with section index `i`. -/
def specNumberSectionsGo : List NumberableSection → Nat → List NumberedSection
  | [], _ => []
  | s :: ss, i =>
    { sectionTitle := "Section " ++ natRepr i ++ " — " ++ s.title,
      questions := specNumberQuestionsGo i s.questions 1 } ::
      specNumberSectionsGo ss (i + 1)

/-- Spec §4.3 numbering of a whole section list, for fresh input. -/
def specNumberSections (sections : List NumberableSection) :
    List NumberedSection :=
  specNumberSectionsGo sections 1

/-- No section title and no question title of the input is already
numbered. -/
def Fresh (sections : List NumberableSection) : Prop :=
  ∀ s ∈ sections, ALREADY_NUMBERED_RE s.title = false ∧
    ∀ q ∈ s.questions, ALREADY_NUMBERED_RE q.title = false

/-- Number of non-title questions in a list (the number of counter slots the
list consumes). -/
def countNonTitle (qs : List NumberableQuestion) : Nat :=
  (qs.filter (fun q => q.type != "title")).length

-- Scratch checks against the vitest suite in `src/numbering.test.ts`.
example : ALREADY_NUMBERED_RE "Section 1 — The Deal Pipeline" = true := by decide
example : ALREADY_NUMBERED_RE "Q 1.1 — Walk us through" = true := by decide
example : ALREADY_NUMBERED_RE "Q 2 — Your name" = true := by decide
example : ALREADY_NUMBERED_RE "1. Some title" = true := by decide
example : ALREADY_NUMBERED_RE "2) Some title" = true := by decide
example : ALREADY_NUMBERED_RE "Walk us through your pipeline" = false := by decide
example : ALREADY_NUMBERED_RE "How many Q 1 items" = false := by decide
example : numberTitle "Q 1 — " "Your name" = "Q 1 — Your name" := by decide
example : numberTitle "Q 1 — " "Q 3.2 — Existing" = "Q 3.2 — Existing" := by decide
example : numberTitle "Section 1 — " "Section 2 — Old" = "Section 2 — Old" := by decide
example : numberTitle "Q 1 — " "1. First question" = "1. First question" := by decide
example :
    numberSections
      [{ title := "The Deal Pipeline",
         questions := [{ type := "paragraph", title := "Walk us through your pipeline" },
                       { type := "text", title := "Average deal size" }] },
       { title := "Team",
         questions := [{ type := "text", title := "Team size" }] }] =
    [{ sectionTitle := "Section 1 — The Deal Pipeline",
       questions := ["Q 1.1 — Walk us through your pipeline",
                     "Q 1.2 — Average deal size"] },
     { sectionTitle := "Section 2 — Team",
       questions := ["Q 2.1 — Team size"] }] := by decide
example :
    numberFlatQuestions
      [{ type := "title", title := "About You" },
       { type := "text", title := "Your name" },
       { type := "text", title := "Your email" }] =
    ["About You", "Q 1 — Your name", "Q 2 — Your email"] := by decide
example : numberFlatQuestions [] = [] := by decide

/-! ### Character-class facts -/

lemma isJsSpace_eq_false_of_isDig {c : Char} (h : isDig c = true) :
    isJsSpace c = false := by
  simp only [isDig, Bool.and_eq_true, decide_eq_true_eq] at h
  simp only [isJsSpace, Bool.or_eq_false_iff, beq_eq_false_iff_ne, ne_eq,
    Bool.and_eq_false_iff, decide_eq_false_iff_not, not_le]
  omega

lemma isNumPunct_eq_false_of_isDig {c : Char} (h : isDig c = true) :
    isNumPunct c = false := by
  cases hp : isNumPunct c with
  | false => rfl
  | true =>
    exfalso
    have hc : c = '.' ∨ c = ')' := by
      simpa [isNumPunct] using hp
    rcases hc with rfl | rfl <;> exact absurd h (by decide)

lemma isNumPunct_iff (c : Char) :
    isNumPunct c = true ↔ c = '.' ∨ c = ')' := by
  simp [isNumPunct]

/-! ### Characterization of the matcher pieces -/

lemma digitAfterWs_iff (cs : List Char) :
    digitAfterWs cs = true ↔
      ∃ ws d rest, cs = ws ++ d :: rest ∧
        (∀ c ∈ ws, isJsSpace c = true) ∧ isDig d = true := by
  induction cs with
  | nil =>
    constructor
    · intro h; exact absurd h (by simp [digitAfterWs])
    · rintro ⟨ws, d, rest, heq, -, -⟩
      cases ws with
      | nil => simp at heq
      | cons w ws => simp at heq
  | cons c cs ih =>
    cases hc : isJsSpace c with
    | true =>
      have hstep : digitAfterWs (c :: cs) = digitAfterWs cs := by
        simp [digitAfterWs, hc]
      rw [hstep, ih]
      constructor
      · rintro ⟨ws, d, rest, rfl, hall, hd⟩
        refine ⟨c :: ws, d, rest, rfl, ?_, hd⟩
        intro x hx
        rcases List.mem_cons.mp hx with rfl | hx
        · exact hc
        · exact hall x hx
      · rintro ⟨ws, d, rest, heq, hall, hd⟩
        cases ws with
        | nil =>
          simp only [List.nil_append, List.cons.injEq] at heq
          obtain ⟨rfl, rfl⟩ := heq
          rw [isJsSpace_eq_false_of_isDig hd] at hc
          exact absurd hc (by simp)
        | cons w ws =>
          simp only [List.cons_append, List.cons.injEq] at heq
          obtain ⟨rfl, heq⟩ := heq
          exact ⟨ws, d, rest, heq,
            fun x hx => hall x (List.mem_cons_of_mem _ hx), hd⟩
    | false =>
      have hstep : digitAfterWs (c :: cs) = isDig c := by
        simp [digitAfterWs, hc]
      rw [hstep]
      constructor
      · intro hd
        exact ⟨[], c, cs, rfl, by simp, hd⟩
      · rintro ⟨ws, d, rest, heq, hall, hd⟩
        cases ws with
        | nil =>
          simp only [List.nil_append, List.cons.injEq] at heq
          obtain ⟨rfl, rfl⟩ := heq
          exact hd
        | cons w ws =>
          simp only [List.cons_append, List.cons.injEq] at heq
          obtain ⟨rfl, -⟩ := heq
          have hw := hall c (List.mem_cons_self _ _)
          rw [hc] at hw
          exact absurd hw (by simp)

lemma wsDigit_iff (cs : List Char) :
    wsDigit cs = true ↔
      ∃ ws d rest, cs = ws ++ d :: rest ∧ ws ≠ [] ∧
        (∀ c ∈ ws, isJsSpace c = true) ∧ isDig d = true := by
  cases cs with
  | nil =>
    constructor
    · intro h; exact absurd h (by simp [wsDigit])
    · rintro ⟨ws, d, rest, heq, hne, -, -⟩
      cases ws with
      | nil => exact absurd rfl hne
      | cons w ws => simp at heq
  | cons c cs =>
    have hstep : wsDigit (c :: cs) = (isJsSpace c && digitAfterWs cs) := rfl
    rw [hstep, Bool.and_eq_true, digitAfterWs_iff]
    constructor
    · rintro ⟨hc, ws, d, rest, rfl, hall, hd⟩
      refine ⟨c :: ws, d, rest, rfl, by simp, ?_, hd⟩
      intro x hx
      rcases List.mem_cons.mp hx with rfl | hx
      · exact hc
      · exact hall x hx
    · rintro ⟨ws, d, rest, heq, hne, hall, hd⟩
      cases ws with
      | nil => exact absurd rfl hne
      | cons w ws =>
        simp only [List.cons_append, List.cons.injEq] at heq
        obtain ⟨rfl, heq⟩ := heq
        exact ⟨hall c (List.mem_cons_self _ _),
          ws, d, rest, heq, fun x hx => hall x (List.mem_cons_of_mem _ hx), hd⟩

lemma headIsJsSpace_iff (cs : List Char) :
    headIsJsSpace cs = true ↔ ∃ w rest, cs = w :: rest ∧ isJsSpace w = true := by
  cases cs with
  | nil =>
    constructor
    · intro h; exact absurd h (by simp [headIsJsSpace])
    · rintro ⟨w, rest, heq, -⟩; simp at heq
  | cons c cs =>
    have hstep : headIsJsSpace (c :: cs) = isJsSpace c := rfl
    rw [hstep]
    constructor
    · intro h; exact ⟨c, cs, rfl, h⟩
    · rintro ⟨w, rest, heq, hw⟩
      injection heq with h1 h2
      subst h1
      exact hw

lemma afterDigits_iff (cs : List Char) :
    afterDigits cs = true ↔
      ∃ ds p w rest, cs = ds ++ p :: w :: rest ∧
        (∀ c ∈ ds, isDig c = true) ∧ isNumPunct p = true ∧ isJsSpace w = true := by
  induction cs with
  | nil =>
    constructor
    · intro h; exact absurd h (by simp [afterDigits])
    · rintro ⟨ds, p, w, rest, heq, -, -, -⟩
      cases ds with
      | nil => simp at heq
      | cons e ds => simp at heq
  | cons c cs ih =>
    cases hc : isDig c with
    | true =>
      have hstep : afterDigits (c :: cs) = afterDigits cs := by
        simp [afterDigits, hc]
      rw [hstep, ih]
      constructor
      · rintro ⟨ds, p, w, rest, rfl, hds, hp, hw⟩
        refine ⟨c :: ds, p, w, rest, rfl, ?_, hp, hw⟩
        intro x hx
        rcases List.mem_cons.mp hx with rfl | hx
        · exact hc
        · exact hds x hx
      · rintro ⟨ds, p, w, rest, heq, hds, hp, hw⟩
        cases ds with
        | nil =>
          simp only [List.nil_append, List.cons.injEq] at heq
          obtain ⟨rfl, -⟩ := heq
          rw [isNumPunct_eq_false_of_isDig hc] at hp
          exact absurd hp (by simp)
        | cons e ds =>
          simp only [List.cons_append, List.cons.injEq] at heq
          obtain ⟨rfl, heq⟩ := heq
          exact ⟨ds, p, w, rest, heq,
            fun x hx => hds x (List.mem_cons_of_mem _ hx), hp, hw⟩
    | false =>
      have hstep : afterDigits (c :: cs) = (isNumPunct c && headIsJsSpace cs) := by
        simp [afterDigits, hc]
      rw [hstep, Bool.and_eq_true]
      constructor
      · rintro ⟨hp, hh⟩
        obtain ⟨w, rest, rfl, hw⟩ := (headIsJsSpace_iff cs).mp hh
        exact ⟨[], c, w, rest, rfl, by simp, hp, hw⟩
      · rintro ⟨ds, p, w, rest, heq, hds, hp, hw⟩
        cases ds with
        | nil =>
          simp only [List.nil_append, List.cons.injEq] at heq
          obtain ⟨rfl, rfl⟩ := heq
          exact ⟨hp, (headIsJsSpace_iff _).mpr ⟨w, rest, rfl, hw⟩⟩
        | cons e ds =>
          simp only [List.cons_append, List.cons.injEq] at heq
          obtain ⟨rfl, -⟩ := heq
          have he := hds c (List.mem_cons_self _ _)
          rw [hc] at he
          exact absurd he (by simp)

lemma digitsPunctSpace_iff (cs : List Char) :
    digitsPunctSpace cs = true ↔ NumDotForm cs := by
  unfold NumDotForm
  cases cs with
  | nil =>
    constructor
    · intro h; exact absurd h (by simp [digitsPunctSpace])
    · rintro ⟨ds, p, w, rest, heq, hne, -, -, -⟩
      cases ds with
      | nil => exact absurd rfl hne
      | cons e ds => simp at heq
  | cons c cs =>
    have hstep : digitsPunctSpace (c :: cs) = (isDig c && afterDigits cs) := rfl
    rw [hstep, Bool.and_eq_true, afterDigits_iff]
    constructor
    · rintro ⟨hc, ds, p, w, rest, rfl, hds, hp, hw⟩
      refine ⟨c :: ds, p, w, rest, rfl, by simp, ?_, (isNumPunct_iff p).mp hp, hw⟩
      intro x hx
      rcases List.mem_cons.mp hx with rfl | hx
      · exact hc
      · exact hds x hx
    · rintro ⟨ds, p, w, rest, heq, hne, hds, hp, hw⟩
      cases ds with
      | nil => exact absurd rfl hne
      | cons e ds =>
        simp only [List.cons_append, List.cons.injEq] at heq
        obtain ⟨rfl, heq⟩ := heq
        exact ⟨hds c (List.mem_cons_self _ _), ds, p, w, rest, heq,
          fun x hx => hds x (List.mem_cons_of_mem _ hx), (isNumPunct_iff p).mpr hp, hw⟩

lemma stripCI_eq_some_iff (pat : List Char) :
    ∀ cs rest, stripCI pat cs = some rest ↔
      ∃ ks, cs = ks ++ rest ∧ ks.map Char.toLower = pat := by
  induction pat with
  | nil =>
    intro cs rest
    constructor
    · intro h
      have hcr : cs = rest := by simpa [stripCI] using h
      exact ⟨[], by simp [hcr], rfl⟩
    · rintro ⟨ks, rfl, hks⟩
      have hk0 : ks = [] := List.map_eq_nil_iff.mp hks
      subst hk0
      simp [stripCI]
  | cons p ps ih =>
    intro cs rest
    cases cs with
    | nil =>
      constructor
      · intro h; simp [stripCI] at h
      · rintro ⟨ks, heq, hks⟩
        cases ks with
        | nil => simp at hks
        | cons k ks => simp at heq
    | cons c cs =>
      have hstep : stripCI (p :: ps) (c :: cs) =
          if c.toLower = p then stripCI ps cs else none := rfl
      rw [hstep]
      by_cases hcp : c.toLower = p
      · rw [if_pos hcp, ih cs rest]
        constructor
        · rintro ⟨ks, rfl, hks⟩
          exact ⟨c :: ks, rfl, by simp [hks, hcp]⟩
        · rintro ⟨ks, heq, hks⟩
          cases ks with
          | nil => simp at hks
          | cons k ks =>
            simp only [List.cons_append, List.cons.injEq] at heq
            obtain ⟨rfl, heq⟩ := heq
            simp only [List.map_cons, List.cons.injEq] at hks
            exact ⟨ks, heq, hks.2⟩
      · rw [if_neg hcp]
        constructor
        · intro h; simp at h
        · rintro ⟨ks, heq, hks⟩
          cases ks with
          | nil => simp at hks
          | cons k ks =>
            simp only [List.cons_append, List.cons.injEq] at heq
            obtain ⟨rfl, -⟩ := heq
            simp only [List.map_cons, List.cons.injEq] at hks
            exact absurd hks.1 hcp

lemma kwWsDigit_iff (pat cs : List Char) :
    kwWsDigit pat cs = true ↔
      ∃ ks ws d rest, cs = ks ++ ws ++ d :: rest ∧ ks.map Char.toLower = pat ∧
        ws ≠ [] ∧ (∀ c ∈ ws, isJsSpace c = true) ∧ isDig d = true := by
  constructor
  · intro h
    obtain ⟨rest', hsome, hwd⟩ :
        ∃ rest', stripCI pat cs = some rest' ∧ wsDigit rest' = true := by
      unfold kwWsDigit at h
      cases hs : stripCI pat cs with
      | none => rw [hs] at h; exact absurd h (by simp)
      | some r => rw [hs] at h; exact ⟨r, rfl, h⟩
    obtain ⟨ks, rfl, hks⟩ := (stripCI_eq_some_iff pat cs rest').mp hsome
    obtain ⟨ws, d, rest, rfl, hne, hall, hd⟩ := (wsDigit_iff rest').mp hwd
    exact ⟨ks, ws, d, rest, by simp [List.append_assoc], hks, hne, hall, hd⟩
  · rintro ⟨ks, ws, d, rest, rfl, hks, hne, hall, hd⟩
    have hsome : stripCI pat (ks ++ ws ++ d :: rest) = some (ws ++ d :: rest) :=
      (stripCI_eq_some_iff pat _ _).mpr ⟨ks, by simp [List.append_assoc], hks⟩
    unfold kwWsDigit
    rw [hsome]
    exact (wsDigit_iff _).mpr ⟨ws, d, rest, rfl, hne, hall, hd⟩

lemma alreadyNumbered_iff (s : String) :
    ALREADY_NUMBERED_RE s = true ↔ AlreadyNumberedSpec s := by
  unfold ALREADY_NUMBERED_RE alreadyNumberedL AlreadyNumberedSpec
    SectionPrefixForm QPrefixForm
  rw [Bool.or_eq_true, Bool.or_eq_true, kwWsDigit_iff, kwWsDigit_iff,
    digitsPunctSpace_iff, or_assoc]

/-! ### Decimal renderings start with a digit -/

lemma isDig_decDigitChar (r : Nat) (h : r < 10) :
    isDig (decDigitChar r) = true := by
  interval_cases r <;> decide

lemma natDigitsAux_all_dig :
    ∀ fuel n : Nat, ∀ c ∈ natDigitsAux fuel n, isDig c = true := by
  intro fuel
  induction fuel with
  | zero => intro n c hc; simp [natDigitsAux] at hc
  | succ fuel ih =>
    intro n c hc
    by_cases hn : n = 0
    · simp [natDigitsAux, hn] at hc
    · have hstep : natDigitsAux (fuel + 1) n =
          natDigitsAux fuel (n / 10) ++ [decDigitChar (n % 10)] := by
        simp [natDigitsAux, hn]
      rw [hstep] at hc
      rcases List.mem_append.mp hc with h | h
      · exact ih _ _ h
      · have hcd : c = decDigitChar (n % 10) := by simpa using h
        subst hcd
        exact isDig_decDigitChar _ (Nat.mod_lt _ (by omega))

lemma natDigitsAux_ne_nil (fuel n : Nat) (hf : fuel ≠ 0) (hn : n ≠ 0) :
    natDigitsAux fuel n ≠ [] := by
  cases fuel with
  | zero => exact absurd rfl hf
  | succ f => simp [natDigitsAux, hn]

lemma natRepr_head_dig (n : Nat) :
    ∃ d ds, (natRepr n).data = d :: ds ∧ isDig d = true := by
  by_cases hn : n = 0
  · subst hn
    exact ⟨'0', [], rfl, by decide⟩
  · have hne := natDigitsAux_ne_nil n n hn hn
    cases hl : natDigitsAux n n with
    | nil => exact absurd hl hne
    | cons d ds =>
      refine ⟨d, ds, ?_, ?_⟩
      · simp [natRepr, hn, hl]
      · exact natDigitsAux_all_dig n n d (by rw [hl]; exact List.mem_cons_self _ _)

/-! ### Every computed prefix makes a title look already numbered -/

lemma numberTitle_of_numbered {t : String}
    (h : ALREADY_NUMBERED_RE t = true) (p : String) : numberTitle p t = t := by
  simp [numberTitle, h]

lemma numberTitle_of_not_numbered {t : String}
    (h : ALREADY_NUMBERED_RE t = false) (p : String) :
    numberTitle p t = p ++ t := by
  simp [numberTitle, h]

lemma sectionPrefix_numbered (i : Nat) (t : String) :
    ALREADY_NUMBERED_RE (("Section " ++ natRepr i ++ " — ") ++ t) = true := by
  obtain ⟨d, ds, hd, hdig⟩ := natRepr_head_dig i
  refine (alreadyNumbered_iff _).mpr (Or.inl ?_)
  refine ⟨"Section".data, [' '], d, ds ++ " — ".data ++ t.data, ?_,
    by decide, by simp, by decide, hdig⟩
  have hsec : "Section ".data = "Section".data ++ [' '] := by decide
  simp [String.data_append, hd, hsec, List.append_assoc]

lemma qPrefix_numbered (si : Option Nat) (idx : Nat) (t : String) :
    ALREADY_NUMBERED_RE (qPrefix si idx ++ t) = true := by
  cases si with
  | some s =>
    obtain ⟨d, ds, hd, hdig⟩ := natRepr_head_dig s
    refine (alreadyNumbered_iff _).mpr (Or.inr (Or.inl ?_))
    refine ⟨['Q'], [' '], d,
      ds ++ ".".data ++ (natRepr idx).data ++ " — ".data ++ t.data, ?_,
      by decide, by simp, by decide, hdig⟩
    have hq : "Q ".data = ['Q'] ++ [' '] := by decide
    simp [qPrefix, String.data_append, hd, hq, List.append_assoc]
  | none =>
    obtain ⟨d, ds, hd, hdig⟩ := natRepr_head_dig idx
    refine (alreadyNumbered_iff _).mpr (Or.inr (Or.inl ?_))
    refine ⟨['Q'], [' '], d, ds ++ " — ".data ++ t.data, ?_,
      by decide, by simp, by decide, hdig⟩
    have hq : "Q ".data = ['Q'] ++ [' '] := by decide
    simp [qPrefix, String.data_append, hd, hq, List.append_assoc]

lemma numberTitle_section_numbered (i : Nat) (t : String) :
    ALREADY_NUMBERED_RE (numberTitle ("Section " ++ natRepr i ++ " — ") t) =
      true := by
  unfold numberTitle
  split
  · next h => exact h
  · exact sectionPrefix_numbered i t

lemma numberTitle_qPrefix_numbered (si : Option Nat) (idx : Nat) (t : String) :
    ALREADY_NUMBERED_RE (numberTitle (qPrefix si idx) t) = true := by
  unfold numberTitle
  split
  · next h => exact h
  · exact qPrefix_numbered si idx t

/-! ### Idempotence machinery -/

lemma numberQuestionsGo_rebuild (si : Option Nat) :
    ∀ (qs : List NumberableQuestion) (idx : Nat),
      numberQuestionsGo si
        (List.zipWith rebuildQuestion qs (numberQuestionsGo si qs idx)) idx =
      numberQuestionsGo si qs idx := by
  intro qs
  induction qs with
  | nil => intro idx; rfl
  | cons q qs ih =>
    intro idx
    by_cases hq : q.type = "title"
    · simp [numberQuestionsGo, hq, rebuildQuestion, ih idx]
    · have hpre := numberTitle_qPrefix_numbered si idx q.title
      simp [numberQuestionsGo, hq, rebuildQuestion,
        numberTitle_of_numbered hpre, ih (idx + 1)]

lemma numberSectionsGo_rebuild :
    ∀ (ss : List NumberableSection) (i : Nat),
      numberSectionsGo (rebuild ss (numberSectionsGo ss i)) i =
        numberSectionsGo ss i := by
  intro ss
  induction ss with
  | nil => intro i; rfl
  | cons s ss ih =>
    intro i
    have hsec := numberTitle_section_numbered i s.title
    have htail := ih (i + 1)
    simp only [rebuild] at htail
    simp [numberSectionsGo, rebuild, rebuildSection, numberQuestions,
      numberTitle_of_numbered hsec, numberQuestionsGo_rebuild, htail]

/-! ### Fresh input gets the literal spec numbering -/

lemma numberQuestionsGo_fresh (i : Nat) :
    ∀ (qs : List NumberableQuestion) (k : Nat),
      (∀ q ∈ qs, ALREADY_NUMBERED_RE q.title = false) →
      numberQuestionsGo (some i) qs k = specNumberQuestionsGo i qs k := by
  intro qs
  induction qs with
  | nil => intro k _; rfl
  | cons q qs ih =>
    intro k h
    have htail : ∀ x ∈ qs, ALREADY_NUMBERED_RE x.title = false :=
      fun x hx => h x (List.mem_cons_of_mem _ hx)
    by_cases hq : q.type = "title"
    · simp [numberQuestionsGo, specNumberQuestionsGo, hq, ih k htail]
    · have ht := h q (List.mem_cons_self _ _)
      simp [numberQuestionsGo, specNumberQuestionsGo, hq, qPrefix,
        numberTitle_of_not_numbered ht, ih (k + 1) htail]

lemma numberSectionsGo_fresh :
    ∀ (ss : List NumberableSection) (i : Nat),
      (∀ s ∈ ss, ALREADY_NUMBERED_RE s.title = false ∧
        ∀ q ∈ s.questions, ALREADY_NUMBERED_RE q.title = false) →
      numberSectionsGo ss i = specNumberSectionsGo ss i := by
  intro ss
  induction ss with
  | nil => intro i _; rfl
  | cons s ss ih =>
    intro i h
    have hs := h s (List.mem_cons_self _ _)
    simp [numberSectionsGo, specNumberSectionsGo, numberQuestions,
      numberTitle_of_not_numbered hs.1,
      numberQuestionsGo_fresh i s.questions 1 hs.2,
      ih (i + 1) (fun x hx => h x (List.mem_cons_of_mem _ hx))]

/-! ### Counter arithmetic and order preservation -/

lemma countNonTitle_nil : countNonTitle [] = 0 := rfl

lemma countNonTitle_cons_title {p : NumberableQuestion} (hp : p.type = "title")
    (qs : List NumberableQuestion) :
    countNonTitle (p :: qs) = countNonTitle qs := by
  simp [countNonTitle, List.filter_cons, hp]

lemma countNonTitle_cons_other {p : NumberableQuestion}
    (hp : ¬ p.type = "title") (qs : List NumberableQuestion) :
    countNonTitle (p :: qs) = countNonTitle qs + 1 := by
  simp [countNonTitle, List.filter_cons, hp]

lemma numberQuestionsGo_getD (si : Option Nat) :
    ∀ (qs1 : List NumberableQuestion) (q : NumberableQuestion)
      (qs2 : List NumberableQuestion) (idx : Nat), q.type ≠ "title" →
      (numberQuestionsGo si (qs1 ++ q :: qs2) idx).getD qs1.length "" =
        numberTitle (qPrefix si (idx + countNonTitle qs1)) q.title := by
  intro qs1
  induction qs1 with
  | nil =>
    intro q qs2 idx hq
    simp [numberQuestionsGo, hq, countNonTitle_nil]
  | cons p qs1 ih =>
    intro q qs2 idx hq
    by_cases hp : p.type = "title"
    · have hstep : numberQuestionsGo si ((p :: qs1) ++ q :: qs2) idx =
          p.title :: numberQuestionsGo si (qs1 ++ q :: qs2) idx := by
        simp [numberQuestionsGo, hp]
      rw [hstep]
      simp only [List.length_cons, List.getD_cons_succ]
      rw [ih q qs2 idx hq, countNonTitle_cons_title hp]
    · have hstep : numberQuestionsGo si ((p :: qs1) ++ q :: qs2) idx =
          numberTitle (qPrefix si idx) p.title ::
            numberQuestionsGo si (qs1 ++ q :: qs2) (idx + 1) := by
        simp [numberQuestionsGo, hp]
      rw [hstep]
      simp only [List.length_cons, List.getD_cons_succ]
      rw [ih q qs2 (idx + 1) hq, countNonTitle_cons_other hp]
      have harith : idx + 1 + countNonTitle qs1 = idx + (countNonTitle qs1 + 1) := by
        omega
      rw [harith]

lemma numberQuestionsGo_length (si : Option Nat) :
    ∀ (qs : List NumberableQuestion) (idx : Nat),
      (numberQuestionsGo si qs idx).length = qs.length := by
  intro qs
  induction qs with
  | nil => intro idx; rfl
  | cons q qs ih =>
    intro idx
    by_cases hq : q.type = "title"
    · simp [numberQuestionsGo, hq, ih idx]
    · simp [numberQuestionsGo, hq, ih (idx + 1)]

lemma numberQuestionsGo_getD_from (si : Option Nat) :
    ∀ (qs : List NumberableQuestion) (idx i : Nat), i < qs.length →
      (numberQuestionsGo si qs idx).getD i "" =
          (qs.getD i ⟨"", ""⟩).title ∨
        ∃ p, (numberQuestionsGo si qs idx).getD i "" =
          p ++ (qs.getD i ⟨"", ""⟩).title := by
  intro qs
  induction qs with
  | nil => intro idx i h; exact absurd h (by simp)
  | cons q qs ih =>
    intro idx i h
    cases i with
    | zero =>
      by_cases hq : q.type = "title"
      · left
        simp [numberQuestionsGo, hq]
      · have hstep : (numberQuestionsGo si (q :: qs) idx).getD 0 "" =
            numberTitle (qPrefix si idx) q.title := by
          simp [numberQuestionsGo, hq]
        rw [hstep]
        unfold numberTitle
        split
        · left; simp
        · right; exact ⟨qPrefix si idx, by simp⟩
    | succ i =>
      have h' : i < qs.length := by simpa using h
      by_cases hq : q.type = "title"
      · have hstep : numberQuestionsGo si (q :: qs) idx =
            q.title :: numberQuestionsGo si qs idx := by
          simp [numberQuestionsGo, hq]
        rw [hstep]
        simpa [List.getD_cons_succ] using ih idx i h'
      · have hstep : numberQuestionsGo si (q :: qs) idx =
            numberTitle (qPrefix si idx) q.title ::
              numberQuestionsGo si qs (idx + 1) := by
          simp [numberQuestionsGo, hq]
        rw [hstep]
        simpa [List.getD_cons_succ] using ih (idx + 1) i h'

lemma numberSectionsGo_question_lengths :
    ∀ (ss : List NumberableSection) (i : Nat),
      (numberSectionsGo ss i).map (fun o => o.questions.length) =
        ss.map (fun s => s.questions.length) := by
  intro ss
  induction ss with
  | nil => intro i; rfl
  | cons s ss ih =>
    intro i
    simp [numberSectionsGo, numberQuestions, numberQuestionsGo_length,
      ih (i + 1)]

lemma numberSectionsGo_length :
    ∀ (ss : List NumberableSection) (i : Nat),
      (numberSectionsGo ss i).length = ss.length := by
  intro ss
  induction ss with
  | nil => intro i; rfl
  | cons s ss ih => intro i; simp [numberSectionsGo, ih (i + 1)]

/-! ### Claim theorems -/

/-- C1: `ALREADY_NUMBERED_RE` returns true for a title iff the title starts,
anchored at its very first character, with one of exactly three forms:
`"Section"` (case-insensitive) + whitespace + digit, `"Q"` (case-insensitive)
+ whitespace + digit, or digits + `.`/`)` + whitespace; a pattern occurring
only mid-string (e.g. `"How many Q 1 items"`) does not match. -/
theorem detector_iff_spec_grammar :
    (∀ s : String, ALREADY_NUMBERED_RE s = true ↔ AlreadyNumberedSpec s) ∧
    ALREADY_NUMBERED_RE "How many Q 1 items" = false :=
  ⟨alreadyNumbered_iff, by decide⟩

theorem detector_iff_spec_grammar_witness :
    ALREADY_NUMBERED_RE "sEcTiOn 42 — x" = true :=
  (detector_iff_spec_grammar.1 "sEcTiOn 42 — x").mpr
    (Or.inl ⟨"sEcTiOn".data, [' '], '4', "2 — x".data, by decide, by decide,
      by simp, by decide, by decide⟩)

/-- C2: `numberTitle` returns the title unchanged whenever the title matches
the already-numbered grammar (whatever the prefix, and even when the numeral
is "wrong" for the position, e.g. `"Section 2 — Old"` numbered as section 1),
and returns `prefix ++ title` for every title not matching the grammar. -/
theorem numberTitle_contract :
    (∀ p t : String,
      (AlreadyNumberedSpec t → numberTitle p t = t) ∧
      (¬ AlreadyNumberedSpec t → numberTitle p t = p ++ t)) ∧
    numberTitle "Section 1 — " "Section 2 — Old" = "Section 2 — Old" := by
  constructor
  · intro p t
    constructor
    · intro h
      exact numberTitle_of_numbered ((alreadyNumbered_iff t).mpr h) p
    · intro h
      have hf : ALREADY_NUMBERED_RE t = false := by
        cases hb : ALREADY_NUMBERED_RE t with
        | false => rfl
        | true => exact absurd ((alreadyNumbered_iff t).mp hb) h
      exact numberTitle_of_not_numbered hf p
  · decide

theorem numberTitle_contract_witness :
    numberTitle "Q 1 — " "1. First question" = "1. First question" :=
  (numberTitle_contract.1 "Q 1 — " "1. First question").1
    ((alreadyNumbered_iff "1. First question").mp (by decide))

/-- C3: re-numbering is idempotent: running `numberSections` on inputs
reconstructed from the output of a prior run (each question keeping its
original `type` and taking its computed title) reproduces that output, so
every section title and question title is left unchanged. -/
theorem numberSections_idempotent (sections : List NumberableSection) :
    numberSections (rebuild sections (numberSections sections)) =
      numberSections sections :=
  numberSectionsGo_rebuild sections 1

/-- C4: on input whose titles are not already numbered, `numberSections`
numbers the section at 1-based position `i` with prefix `"Section {i} — "`
and its non-title questions with `"Q {i}.{k} — "`, `k` a 1-based counter
restarting per section; concretely, two fresh sections of sizes 2 and 1
yield `"Section 1 — X"`, `"Section 2 — Y"` and question lists
`["Q 1.1 — A", "Q 1.2 — B"]`, `["Q 2.1 — C"]`. -/
theorem numberSections_fresh :
    (∀ sections : List NumberableSection, Fresh sections →
      numberSections sections = specNumberSections sections) ∧
    numberSections
      [{ title := "X", questions := [{ type := "text", title := "A" },
                                     { type := "text", title := "B" }] },
       { title := "Y", questions := [{ type := "text", title := "C" }] }] =
    [{ sectionTitle := "Section 1 — X",
       questions := ["Q 1.1 — A", "Q 1.2 — B"] },
     { sectionTitle := "Section 2 — Y",
       questions := ["Q 2.1 — C"] }] := by
  constructor
  · intro sections h
    exact numberSectionsGo_fresh sections 1 h
  · decide

theorem numberSections_fresh_witness :
    numberSections
        [{ title := "Alpha", questions := [{ type := "text", title := "Beta" }] }] =
      specNumberSections
        [{ title := "Alpha", questions := [{ type := "text", title := "Beta" }] }] :=
  numberSections_fresh.1 _ (by unfold Fresh; decide)

/-- C5: a question of type `"title"` is output with its raw title unchanged
and does not consume a question-index slot: the following questions are
numbered as if it were absent; e.g. a flat list of one title item and two
fresh regular items yields `[t1, "Q 1 — " ++ t2, "Q 2 — " ++ t3]`. -/
theorem title_type_not_numbered :
    (∀ (si : Option Nat) (t : String) (qs : List NumberableQuestion) (idx : Nat),
      numberQuestionsGo si ({ type := "title", title := t } :: qs) idx =
        t :: numberQuestionsGo si qs idx) ∧
    (∀ t1 ty2 t2 ty3 t3, ty2 ≠ "title" → ty3 ≠ "title" →
      ALREADY_NUMBERED_RE t2 = false → ALREADY_NUMBERED_RE t3 = false →
      numberFlatQuestions
        [{ type := "title", title := t1 }, { type := ty2, title := t2 },
         { type := ty3, title := t3 }] =
        [t1, "Q 1 — " ++ t2, "Q 2 — " ++ t3]) := by
  constructor
  · intro si t qs idx
    simp [numberQuestionsGo]
  · intro t1 ty2 t2 ty3 t3 h2 h3 hn2 hn3
    have e1 : ("Q " ++ natRepr 1 ++ " — " : String) = "Q 1 — " := by decide
    have e2 : ("Q " ++ natRepr 2 ++ " — " : String) = "Q 2 — " := by decide
    simp [numberFlatQuestions, numberQuestions, numberQuestionsGo, h2, h3,
      qPrefix, numberTitle_of_not_numbered hn2, numberTitle_of_not_numbered hn3,
      e1, e2]

theorem title_type_not_numbered_witness :
    numberFlatQuestions
        [{ type := "title", title := "About You" },
         { type := "text", title := "Your name" },
         { type := "text", title := "Your email" }] =
      ["About You", "Q 1 — Your name", "Q 2 — Your email"] :=
  title_type_not_numbered.2 "About You" "text" "Your name" "text" "Your email"
    (by decide) (by decide) (by decide) (by decide)

/-- C6: the output title sequence always has exactly the same length as the
input question sequence, per section and overall, the empty list maps to the
empty list, and the entry at each index is derived from the input question at
that same index (either its raw title or a prefixed version of it). -/
theorem output_length_order :
    (∀ (qs : List NumberableQuestion) (si : Option Nat),
      (numberQuestions qs si).length = qs.length) ∧
    numberFlatQuestions [] = [] ∧
    (∀ sections : List NumberableSection,
      (numberSections sections).length = sections.length ∧
      (numberSections sections).map (fun o => o.questions.length) =
        sections.map (fun s => s.questions.length)) ∧
    (∀ (si : Option Nat) (qs : List NumberableQuestion) (i : Nat),
      i < qs.length →
      (numberQuestions qs si).getD i "" = (qs.getD i ⟨"", ""⟩).title ∨
      ∃ p, (numberQuestions qs si).getD i "" = p ++ (qs.getD i ⟨"", ""⟩).title) := by
  refine ⟨?_, rfl, ?_, ?_⟩
  · intro qs si
    exact numberQuestionsGo_length si qs 1
  · intro sections
    exact ⟨numberSectionsGo_length sections 1,
      numberSectionsGo_question_lengths sections 1⟩
  · intro si qs i h
    exact numberQuestionsGo_getD_from si qs 1 i h

theorem output_length_order_witness :
    (numberQuestions [{ type := "text", title := "Your name" }] none).getD 0 "" =
        (([{ type := "text", title := "Your name" }] :
          List NumberableQuestion).getD 0 ⟨"", ""⟩).title ∨
      ∃ p, (numberQuestions [{ type := "text", title := "Your name" }] none).getD 0 "" =
        p ++ (([{ type := "text", title := "Your name" }] :
          List NumberableQuestion).getD 0 ⟨"", ""⟩).title :=
  output_length_order.2.2.2 none [{ type := "text", title := "Your name" }] 0
    (by decide)

/-- C7: the running counter starts at 1 and is incremented exactly once per
non-title question, after the prefixer runs — even when the title was left
unchanged because it was already numbered.  The non-title question following
`k` non-title questions therefore receives counter value `1 + k`, and a plain
question after the already-numbered `"Q 1.1 — Already numbered"` becomes
`"Q 1.2 — New question"`. -/
theorem counter_increment_per_nonTitle :
    (∀ (si : Option Nat) (qs1 : List NumberableQuestion)
       (q : NumberableQuestion) (qs2 : List NumberableQuestion),
      q.type ≠ "title" →
      (numberQuestions (qs1 ++ q :: qs2) si).getD qs1.length "" =
        numberTitle (qPrefix si (1 + countNonTitle qs1)) q.title) ∧
    numberSections
      [{ title := "Section 1 — Existing",
         questions := [{ type := "text", title := "Q 1.1 — Already numbered" },
                       { type := "text", title := "New question" }] }] =
      [{ sectionTitle := "Section 1 — Existing",
         questions := ["Q 1.1 — Already numbered", "Q 1.2 — New question"] }] := by
  constructor
  · intro si qs1 q qs2 hq
    exact numberQuestionsGo_getD si qs1 q qs2 1 hq
  · decide

theorem counter_increment_per_nonTitle_witness :
    (numberQuestions
        [{ type := "text", title := "Alpha" }, { type := "text", title := "Beta" }]
        none).getD 1 "" =
      numberTitle
        (qPrefix none (1 + countNonTitle [{ type := "text", title := "Alpha" }]))
        "Beta" :=
  counter_increment_per_nonTitle.1 none [{ type := "text", title := "Alpha" }]
    { type := "text", title := "Beta" } [] (by decide)

/-- C9: the empty title never matches the already-numbered grammar, so
`numberTitle p "" = p` for every prefix `p`, and a non-title question with an
empty title is output as exactly its computed prefix. -/
theorem numberTitle_empty_title :
    (∀ p : String, numberTitle p "" = p) ∧
    numberFlatQuestions [{ type := "text", title := "" }] = ["Q 1 — "] := by
  constructor
  · intro p
    have h : ALREADY_NUMBERED_RE "" = false := by decide
    rw [numberTitle_of_not_numbered h p, String.append_empty]
  · decide

/-- C10: the detector tolerates any positive run of whitespace (spaces, tabs
or newlines) between the keyword (`"Section"` or `"Q"`, any letter case) and
the digit, not only the single-space form produced by the engine itself. -/
theorem detector_tolerates_ws_runs (s : String)
    (h : ∃ ks ws d rest, s.data = ks ++ ws ++ d :: rest ∧
      (ks.map Char.toLower = "section".data ∨ ks.map Char.toLower = "q".data) ∧
      ws ≠ [] ∧ (∀ c ∈ ws, c = ' ' ∨ c = '\t' ∨ c = '\n') ∧ isDig d = true) :
    ALREADY_NUMBERED_RE s = true := by
  obtain ⟨ks, ws, d, rest, heq, hks, hne, hws, hd⟩ := h
  have hws' : ∀ c ∈ ws, isJsSpace c = true := by
    intro c hc
    rcases hws c hc with rfl | rfl | rfl <;> decide
  rcases hks with hks | hks
  · exact (alreadyNumbered_iff s).mpr
      (Or.inl ⟨ks, ws, d, rest, heq, hks, hne, hws', hd⟩)
  · exact (alreadyNumbered_iff s).mpr
      (Or.inr (Or.inl ⟨ks, ws, d, rest, heq, hks, hne, hws', hd⟩))

theorem detector_tolerates_ws_runs_witness :
    ALREADY_NUMBERED_RE "Q \t\n3 — hi" = true :=
  detector_tolerates_ws_runs "Q \t\n3 — hi"
    ⟨['Q'], [' ', '\t', '\n'], '3', " — hi".data, by decide,
      Or.inr (by decide), by simp, by decide, by decide⟩
